import Mathlib

/-!
Shallow embedding of the I2C master driver in `src/I2C/i2c.c` (AVR TWI
peripheral driver).

The hardware-facing primitives (`i2c_start`, `i2c_stop`, `i2c_putchar`,
`i2c_getchar_ack`, `i2c_getchar_nack`) busy-wait on the TWI control register
and then inspect the TWI status register `TW_STATUS`.  We model the
environment (slave devices, bus contention) as an oracle `Bus` that supplies
the `TW_STATUS` value observed after the n-th Start condition and after the
n-th byte transmission, and the data byte latched by the n-th byte reception.
The classification of `TW_STATUS` performed by `i2c_start` and `i2c_putchar`
is embedded verbatim from the source; the two composite transactions
`i2c_write` and `i2c_read` are embedded statement by statement, producing
their `uint8_t` return value (as an exit-point tag), the sequence of bus
events they generate, and (for `i2c_read`) the final contents of the caller's
buffer.

Machine integers: all C values here are `uint8_t`; they are modelled as `Nat`
reduced `% 256` wherever the C type could be exercised (function entry for
the byte parameters, the shifted control byte, bytes loaded from memory).
Memory (`uint8_t *buf`) is modelled as a function `Nat → Nat` from byte
offsets to stored values.
-/

/-- TWI status codes from avr-libc `<util/twi.h>`, as used by `i2c.c`. -/
def TW_START : Nat := 0x08

/-- Repeated-start status code. -/
def TW_REP_START : Nat := 0x10

/-- Slave address + write bit transmitted, ACK received. -/
def TW_MT_SLA_ACK : Nat := 0x18

/-- Slave address + write bit transmitted, NACK received. -/
def TW_MT_SLA_NACK : Nat := 0x20

/-- Data byte transmitted, ACK received. -/
def TW_MT_DATA_ACK : Nat := 0x28

/-- Data byte transmitted, NACK received. -/
def TW_MT_DATA_NACK : Nat := 0x30

/-- Arbitration lost in master-transmitter mode. -/
def TW_MT_ARB_LOST : Nat := 0x38

/-- Slave address + read bit transmitted, ACK received. -/
def TW_MR_SLA_ACK : Nat := 0x40

/-- Slave address + read bit transmitted, NACK received. -/
def TW_MR_SLA_NACK : Nat := 0x48

/-- Data byte received, ACK returned. -/
def TW_MR_DATA_ACK : Nat := 0x50

/-- Data byte received, NACK returned. -/
def TW_MR_DATA_NACK : Nat := 0x58

/-- Illegal start/stop condition: bus error. -/
def TW_BUS_ERROR : Nat := 0x00

/-- Direction bit for a write transfer (`TW_WRITE` in `<util/twi.h>`). -/
def TW_WRITE : Nat := 0

/-- Direction bit for a read transfer (`TW_READ` in `<util/twi.h>`). -/
def TW_READ : Nat := 1

/-- The retry bound `#define MAX_RESTARTS 20` at the top of `i2c.c`. -/
def MAX_RESTARTS : Nat := 20

/-- Return-value classification of `TW_STATUS` performed by the `switch` in
`i2c_start` (`i2c.c`): `TW_START` and `TW_REP_START` yield 0 (accepted), any
other status yields 1 (bus collision). -/
def i2c_start_res (s : Nat) : Nat :=
  if s = TW_START ∨ s = TW_REP_START then 0 else 1

/-- Return-value classification of `TW_STATUS` performed by the `switch` in
`i2c_putchar` (`i2c.c`): the four ACK statuses yield 0; bus error, the four
NACK statuses and arbitration lost yield 1; everything else falls to the
`default:` branch and yields 2. -/
def i2c_putchar_res (s : Nat) : Nat :=
  if s = TW_MT_SLA_ACK ∨ s = TW_MT_DATA_ACK ∨ s = TW_MR_SLA_ACK ∨ s = TW_MR_DATA_ACK then
    0
  else if s = TW_BUS_ERROR ∨ s = TW_MT_SLA_NACK ∨ s = TW_MT_DATA_NACK ∨
      s = TW_MT_ARB_LOST ∨ s = TW_MR_SLA_NACK ∨ s = TW_MR_DATA_NACK then
    1
  else
    2

/-- One observable event on the I2C bus, as generated by the driver's
primitives: a Start condition (`i2c_start`, also covering Repeated Start),
a transmitted byte (`i2c_putchar`), an ACKed reception (`i2c_getchar_ack`),
a NACKed reception (`i2c_getchar_nack`), and a Stop condition (`i2c_stop`). -/
inductive Ev where
  | start : Ev
  | put : Nat → Ev
  | getAck : Ev
  | getNack : Ev
  | stop : Ev
deriving DecidableEq, Repr

/-- Environment oracle: the `TW_STATUS` value the hardware reports after the
n-th Start condition and after the n-th transmitted byte (which may depend on
the byte's value), and the byte latched in `TWDR` by the n-th reception.
Indexing by call count within one transaction lets the oracle encode any
deterministic slave or fault-injection scenario. -/
structure Bus where
  startStatus : Nat → Nat
  putStatus : Nat → Nat → Nat
  getByte : Nat → Nat

/-- Running counters of how many Start conditions, byte transmissions and
byte receptions the transaction has issued so far (indices into the oracle). -/
structure BusSt where
  ns : Nat
  np : Nat
  ng : Nat
deriving DecidableEq, Repr

/-- Exit points of `i2c_write`, one per `return` statement reachable on the
bus (the `len == 0` early return is also `success`). -/
inductive WExit where
  | success : WExit
  | startFail : WExit
  | addrFail : WExit
  | regFail : WExit
  | dataFail : WExit
deriving DecidableEq, Repr, Fintype

/-- The `uint8_t` literal returned by `i2c_write` at each exit point. -/
def wcode : WExit → Nat
  | WExit.success => 0
  | WExit.startFail => 1
  | WExit.addrFail => 2
  | WExit.regFail => 3
  | WExit.dataFail => 4

/-- Exit points of `i2c_read`, one per `return` statement reachable on the
bus (the `len == 0` early return is also `success`). -/
inductive RExit where
  | success : RExit
  | startFail : RExit
  | addrFail : RExit
  | regFail : RExit
  | rstartFail : RExit
  | readAddrFail : RExit
deriving DecidableEq, Repr, Fintype

/-- The `uint8_t` literal returned by `i2c_read` at each exit point. -/
def rcode : RExit → Nat
  | RExit.success => 0
  | RExit.startFail => 1
  | RExit.addrFail => 2
  | RExit.regFail => 3
  | RExit.rstartFail => 4
  | RExit.readAddrFail => 5

/-- Pointwise update of a byte buffer: `*(buf + i) = v`. -/
def setByte (buf : Nat → Nat) (i v : Nat) : Nat → Nat :=
  fun j => if j = i then v else buf j

/-- Data phase of `i2c_write`: the loop `for(; len > 0; len--)
{ if(i2c_putchar(*buf++)) return 4; }` followed by `i2c_stop(); return 0;`.
`len` is the remaining byte count, `i` the current offset of the buffer
pointer, `np` the transmission counter. -/
def writeData (bus : Bus) (buf : Nat → Nat) : Nat → Nat → Nat → WExit × List Ev
  | 0, _, _ => (WExit.success, [Ev.stop])
  | len + 1, i, np =>
    let b := buf i % 256
    if i2c_putchar_res (bus.putStatus np b) ≠ 0 then
      (WExit.dataFail, [Ev.put b])
    else
      match writeData bus buf len (i + 1) (np + 1) with
      | (e, tr) => (e, Ev.put b :: tr)

/-- The body of `i2c_write` from the label `WriteRestart` on: issue a Start;
on failure check `restarts-- == 0` (post-decrement: compare, then decrement)
and either `i2c_stop(); return 1;` or `goto WriteRestart`; then transmit the
control byte `(SlvAdrs << 1) | TW_WRITE`; on NACK check `restarts-- == 0`
and either `i2c_stop(); return 2;` or `goto WriteRestart`; then transmit the
register address (`return 3` on NACK, with no Stop), then run the data loop.
The `goto` loop is modelled by recursion on `restarts`, which the source
decrements before every repeat. -/
def writeLoop (bus : Bus) (slv reg len : Nat) (buf : Nat → Nat) :
    Nat → BusSt → WExit × List Ev
  | restarts, st =>
    if i2c_start_res (bus.startStatus st.ns) ≠ 0 then
      match restarts with
      | 0 => (WExit.startFail, [Ev.start, Ev.stop])
      | r + 1 =>
        match writeLoop bus slv reg len buf r ⟨st.ns + 1, st.np, st.ng⟩ with
        | (e, tr) => (e, Ev.start :: tr)
    else
      let ctrl := (slv * 2 + TW_WRITE) % 256
      if i2c_putchar_res (bus.putStatus st.np ctrl) ≠ 0 then
        match restarts with
        | 0 => (WExit.addrFail, [Ev.start, Ev.put ctrl, Ev.stop])
        | r + 1 =>
          match writeLoop bus slv reg len buf r ⟨st.ns + 1, st.np + 1, st.ng⟩ with
          | (e, tr) => (e, Ev.start :: Ev.put ctrl :: tr)
      else
        if i2c_putchar_res (bus.putStatus (st.np + 1) reg) ≠ 0 then
          (WExit.regFail, [Ev.start, Ev.put ctrl, Ev.put reg])
        else
          match writeData bus buf len 0 (st.np + 2) with
          | (e, tr) => (e, Ev.start :: Ev.put ctrl :: Ev.put reg :: tr)

/-- `i2c_write(SlvAdrs, len, adrs, buf)`: returns the exit point (whose
`wcode` is the C return value) and the list of bus events generated.  The
`uint8_t` parameters are reduced `% 256`; `if(len <= 0) return 0;` fires
exactly when the byte value of `len` is zero. -/
def i2c_write (bus : Bus) (SlvAdrs len adrs : Nat) (buf : Nat → Nat) :
    WExit × List Ev :=
  if len % 256 = 0 then
    (WExit.success, [])
  else
    writeLoop bus (SlvAdrs % 256) (adrs % 256) (len % 256) buf MAX_RESTARTS ⟨0, 0, 0⟩

/-- Data phase of `i2c_read`: the loop `for(; len > 1; len--)
{ *(buf++) = i2c_getchar_ack(); }` then `*(buf++) = i2c_getchar_nack();
i2c_stop(); return 0;`.  Note the source's loop guard is `len > 1`, so both
`len = 1` and `len = 0` fall straight through to the single NACKed receive.
Returns the events generated and the updated buffer. -/
def readData (bus : Bus) : Nat → Nat → Nat → (Nat → Nat) → List Ev × (Nat → Nat)
  | len, i, ng, buf =>
    match len with
    | l + 2 =>
      let b := bus.getByte ng % 256
      match readData bus (l + 1) (i + 1) (ng + 1) (setByte buf i b) with
      | (tr, buf2) => (Ev.getAck :: tr, buf2)
    | _ =>
      let b := bus.getByte ng % 256
      ([Ev.getNack, Ev.stop], setByte buf i b)

/-- Straight-line continuation of `i2c_read` after the retry loop, i.e. once
a Start and the write-direction control byte have been accepted: transmit the
register address (`return 3;` on NACK, with no Stop); issue a Repeated Start
(`return 4;` on failure); transmit `(SlvAdrs << 1) | TW_READ` (`return 5;` on
NACK); then run the receive loop, `i2c_stop()` and `return 0;`.  The events
listed are those generated from the register-address byte on; `readLoop`
prepends the Start and control-byte events of its final iteration. -/
def readTail (bus : Bus) (slv reg len : Nat) (buf : Nat → Nat) (st : BusSt) :
    RExit × List Ev × (Nat → Nat) :=
  if i2c_putchar_res (bus.putStatus (st.np + 1) reg) ≠ 0 then
    (RExit.regFail, [Ev.put reg], buf)
  else
    if i2c_start_res (bus.startStatus (st.ns + 1)) ≠ 0 then
      (RExit.rstartFail, [Ev.put reg, Ev.start], buf)
    else
      let rctrl := (slv * 2 + TW_READ) % 256
      if i2c_putchar_res (bus.putStatus (st.np + 2) rctrl) ≠ 0 then
        (RExit.readAddrFail, [Ev.put reg, Ev.start, Ev.put rctrl], buf)
      else
        match readData bus len 0 st.ng buf with
        | (tr, buf2) =>
          (RExit.success, Ev.put reg :: Ev.start :: Ev.put rctrl :: tr, buf2)

/-- The body of `i2c_read` from the label `ReadRRestart` on: issue a Start;
on failure check `--restarts == 0` (pre-decrement: decrement, then compare)
and either `return 1;` (with no Stop) or `goto ReadRRestart`; transmit the
control byte `(SlvAdrs << 1) | TW_WRITE`; on NACK check `--restarts == 0`
and either `i2c_stop(); return 2;` or `goto ReadRRestart`; then continue with
`readTail`.  The loop is only ever entered with `restarts ≥ 1` (it starts at
`MAX_RESTARTS` and exits when the pre-decrement reaches 0), so the `uint8_t`
pre-decrement coincides with `restarts - 1` on `Nat`; the unreachable
`restarts = 0` case is mapped to the same exit as `restarts = 1`. -/
def readLoop (bus : Bus) (slv reg len : Nat) (buf : Nat → Nat) :
    Nat → BusSt → RExit × List Ev × (Nat → Nat)
  | restarts, st =>
    if i2c_start_res (bus.startStatus st.ns) ≠ 0 then
      match restarts with
      | 0 | 1 => (RExit.startFail, [Ev.start], buf)
      | r + 2 =>
        match readLoop bus slv reg len buf (r + 1) ⟨st.ns + 1, st.np, st.ng⟩ with
        | (e, tr, buf2) => (e, Ev.start :: tr, buf2)
    else
      let ctrl := (slv * 2 + TW_WRITE) % 256
      if i2c_putchar_res (bus.putStatus st.np ctrl) ≠ 0 then
        match restarts with
        | 0 | 1 => (RExit.addrFail, [Ev.start, Ev.put ctrl, Ev.stop], buf)
        | r + 2 =>
          match readLoop bus slv reg len buf (r + 1) ⟨st.ns + 1, st.np + 1, st.ng⟩ with
          | (e, tr, buf2) => (e, Ev.start :: Ev.put ctrl :: tr, buf2)
      else
        match readTail bus slv reg len buf st with
        | (e, tr, buf2) => (e, Ev.start :: Ev.put ctrl :: tr, buf2)

/-- `i2c_read(SlvAdrs, len, adrs, buf)`: returns the exit point (whose
`rcode` is the C return value), the list of bus events generated, and the
final contents of the caller's buffer. -/
def i2c_read (bus : Bus) (SlvAdrs len adrs : Nat) (buf : Nat → Nat) :
    RExit × List Ev × (Nat → Nat) :=
  if len % 256 = 0 then
    (RExit.success, [], buf)
  else
    readLoop bus (SlvAdrs % 256) (adrs % 256) (len % 256) buf MAX_RESTARTS ⟨0, 0, 0⟩

/-- Number of occurrences of the event `e` in a bus trace. -/
def countEv (e : Ev) : List Ev → Nat
  | [] => 0
  | x :: xs => (if x = e then 1 else 0) + countEv e xs

/-- The subsequence of reception events (`getAck`/`getNack`) of a bus trace. -/
def getEvents : List Ev → List Ev
  | [] => []
  | x :: xs =>
    if x = Ev.getAck ∨ x = Ev.getNack then x :: getEvents xs else getEvents xs

/-- All-accepting environment: every Start is accepted, every transmitted
byte is ACKed, and the n-th received byte is `mem n`.  This is a simulated
slave with no bus contention whose readable register file is `mem`. -/
def okBus (mem : Nat → Nat) : Bus :=
  ⟨fun _ => TW_START, fun _ _ => TW_MT_SLA_ACK, mem⟩

/-- Fault injection: every Start attempt fails (bus error status). -/
def startFailBus : Bus :=
  ⟨fun _ => TW_BUS_ERROR, fun _ _ => TW_MT_SLA_ACK, fun _ => 0⟩

/-- Fault injection: every Start is accepted but the slave NACKs every
transmitted byte (a permanently busy slave). -/
def addrNackBus : Bus :=
  ⟨fun _ => TW_START, fun _ _ => TW_MT_SLA_NACK, fun _ => 0⟩

/-- Fault injection: the slave ACKs its address byte (transmission 0) and
NACKs the register-address byte (transmission 1). -/
def regNackBus : Bus :=
  ⟨fun _ => TW_START, fun n _ => if n = 0 then TW_MT_SLA_ACK else TW_MT_DATA_NACK,
    fun _ => 0⟩

/-- Fault injection: the slave ACKs the address and register-address bytes
and NACKs the third transmitted byte — the first data byte of a write, or
the read-direction address byte of a read. -/
def thirdNackBus : Bus :=
  ⟨fun _ => TW_START, fun n _ => if n ≤ 1 then TW_MT_SLA_ACK else TW_MT_DATA_NACK,
    fun _ => 0⟩

/-- Fault injection: the first Start condition is accepted, the Repeated
Start is not. -/
def rstartFailBus : Bus :=
  ⟨fun n => if n = 0 then TW_START else TW_BUS_ERROR, fun _ _ => TW_MT_SLA_ACK,
    fun _ => 0⟩

/-- The all-zero byte buffer. -/
def zeroBuf : Nat → Nat := fun _ => 0

/-- The transmission events for the `len` buffer bytes starting at offset
`i`: `put (buf i)`, `put (buf (i+1))`, … (byte values reduced `% 256`). -/
def putsFrom (buf : Nat → Nat) : Nat → Nat → List Ev
  | 0, _ => []
  | l + 1, i => Ev.put (buf i % 256) :: putsFrom buf l (i + 1)

theorem writeData_exit (bus : Bus) (buf : Nat → Nat) :
    ∀ len i np, (writeData bus buf len i np).1 = WExit.success ∨
      (writeData bus buf len i np).1 = WExit.dataFail := by
  intro len
  induction len with
  | zero => intro i np; left; rfl
  | succ l ih =>
    intro i np
    by_cases h : i2c_putchar_res (bus.putStatus np (buf i % 256)) ≠ 0
    · right; simp [writeData, h]
    · rcases hw : writeData bus buf l (i + 1) (np + 1) with ⟨e, tr⟩
      have hx := ih (i + 1) (np + 1)
      rw [hw] at hx
      simpa [writeData, h, hw] using hx

theorem writeData_stop (bus : Bus) (buf : Nat → Nat) :
    ∀ len i np, countEv Ev.stop (writeData bus buf len i np).2 =
      if (writeData bus buf len i np).1 = WExit.success then 1 else 0 := by
  intro len
  induction len with
  | zero => intro i np; rfl
  | succ l ih =>
    intro i np
    by_cases h : i2c_putchar_res (bus.putStatus np (buf i % 256)) ≠ 0
    · simp [writeData, h, countEv]
    · rcases hw : writeData bus buf l (i + 1) (np + 1) with ⟨e, tr⟩
      have hx := ih (i + 1) (np + 1)
      rw [hw] at hx
      simpa [writeData, h, hw, countEv] using hx

theorem writeData_start (bus : Bus) (buf : Nat → Nat) :
    ∀ len i np, countEv Ev.start (writeData bus buf len i np).2 = 0 := by
  intro len
  induction len with
  | zero => intro i np; rfl
  | succ l ih =>
    intro i np
    by_cases h : i2c_putchar_res (bus.putStatus np (buf i % 256)) ≠ 0
    · simp [writeData, h, countEv]
    · rcases hw : writeData bus buf l (i + 1) (np + 1) with ⟨e, tr⟩
      have hx := ih (i + 1) (np + 1)
      rw [hw] at hx
      simpa [writeData, h, hw, countEv] using hx

theorem writeData_allack (bus : Bus) (buf : Nat → Nat)
    (hp : ∀ n b, i2c_putchar_res (bus.putStatus n b) = 0) :
    ∀ len i np, writeData bus buf len i np =
      (WExit.success, putsFrom buf len i ++ [Ev.stop]) := by
  intro len
  induction len with
  | zero => intro i np; rfl
  | succ l ih =>
    intro i np
    have h : ¬ i2c_putchar_res (bus.putStatus np (buf i % 256)) ≠ 0 := by simp [hp]
    simp [writeData, h, ih (i + 1) (np + 1), putsFrom]

theorem writeLoop_stop (bus : Bus) (slv reg len : Nat) (buf : Nat → Nat) :
    ∀ r st, countEv Ev.stop (writeLoop bus slv reg len buf r st).2 =
      if wcode (writeLoop bus slv reg len buf r st).1 ≤ 2 then 1 else 0 := by
  intro r
  induction r with
  | zero =>
    intro st
    by_cases h1 : i2c_start_res (bus.startStatus st.ns) ≠ 0
    · simp [writeLoop, h1, countEv, wcode]
    · by_cases h2 : i2c_putchar_res (bus.putStatus st.np ((slv * 2 + TW_WRITE) % 256)) ≠ 0
      · simp [writeLoop, h1, h2, countEv, wcode]
      · by_cases h3 : i2c_putchar_res (bus.putStatus (st.np + 1) reg) ≠ 0
        · simp [writeLoop, h1, h2, h3, countEv, wcode]
        · rcases hw : writeData bus buf len 0 (st.np + 2) with ⟨e, tr⟩
          have hst := writeData_stop bus buf len 0 (st.np + 2)
          have hex := writeData_exit bus buf len 0 (st.np + 2)
          rw [hw] at hst hex
          rcases hex with he | he <;> subst he <;>
            simp_all [writeLoop, h1, h2, h3, hw, countEv, wcode]
  | succ r ih =>
    intro st
    by_cases h1 : i2c_start_res (bus.startStatus st.ns) ≠ 0
    · rcases hw : writeLoop bus slv reg len buf r ⟨st.ns + 1, st.np, st.ng⟩ with ⟨e, tr⟩
      have hx := ih ⟨st.ns + 1, st.np, st.ng⟩
      rw [hw] at hx
      simpa [writeLoop, h1, hw, countEv] using hx
    · by_cases h2 : i2c_putchar_res (bus.putStatus st.np ((slv * 2 + TW_WRITE) % 256)) ≠ 0
      · rcases hw : writeLoop bus slv reg len buf r ⟨st.ns + 1, st.np + 1, st.ng⟩ with ⟨e, tr⟩
        have hx := ih ⟨st.ns + 1, st.np + 1, st.ng⟩
        rw [hw] at hx
        simpa [writeLoop, h1, h2, hw, countEv] using hx
      · by_cases h3 : i2c_putchar_res (bus.putStatus (st.np + 1) reg) ≠ 0
        · simp [writeLoop, h1, h2, h3, countEv, wcode]
        · rcases hw : writeData bus buf len 0 (st.np + 2) with ⟨e, tr⟩
          have hst := writeData_stop bus buf len 0 (st.np + 2)
          have hex := writeData_exit bus buf len 0 (st.np + 2)
          rw [hw] at hst hex
          rcases hex with he | he <;> subst he <;>
            simp_all [writeLoop, h1, h2, h3, hw, countEv, wcode]

theorem writeLoop_start_le (bus : Bus) (slv reg len : Nat) (buf : Nat → Nat) :
    ∀ r st, countEv Ev.start (writeLoop bus slv reg len buf r st).2 ≤ r + 1 := by
  intro r
  induction r with
  | zero =>
    intro st
    by_cases h1 : i2c_start_res (bus.startStatus st.ns) ≠ 0
    · simp [writeLoop, h1, countEv]
    · by_cases h2 : i2c_putchar_res (bus.putStatus st.np ((slv * 2 + TW_WRITE) % 256)) ≠ 0
      · simp [writeLoop, h1, h2, countEv]
      · by_cases h3 : i2c_putchar_res (bus.putStatus (st.np + 1) reg) ≠ 0
        · simp [writeLoop, h1, h2, h3, countEv]
        · rcases hw : writeData bus buf len 0 (st.np + 2) with ⟨e, tr⟩
          have hst := writeData_start bus buf len 0 (st.np + 2)
          rw [hw] at hst
          simp [writeLoop, h1, h2, h3, hw, countEv, hst]
  | succ r ih =>
    intro st
    by_cases h1 : i2c_start_res (bus.startStatus st.ns) ≠ 0
    · rcases hw : writeLoop bus slv reg len buf r ⟨st.ns + 1, st.np, st.ng⟩ with ⟨e, tr⟩
      have hx := ih ⟨st.ns + 1, st.np, st.ng⟩
      rw [hw] at hx
      simp only at hx
      have h4 : (writeLoop bus slv reg len buf (r + 1) st).2 = Ev.start :: tr := by
        simp [writeLoop, h1, hw]
      rw [h4]
      simp [countEv]
      omega
    · by_cases h2 : i2c_putchar_res (bus.putStatus st.np ((slv * 2 + TW_WRITE) % 256)) ≠ 0
      · rcases hw : writeLoop bus slv reg len buf r ⟨st.ns + 1, st.np + 1, st.ng⟩ with ⟨e, tr⟩
        have hx := ih ⟨st.ns + 1, st.np + 1, st.ng⟩
        rw [hw] at hx
        simp only at hx
        have h4 : (writeLoop bus slv reg len buf (r + 1) st).2 =
            Ev.start :: Ev.put ((slv * 2 + TW_WRITE) % 256) :: tr := by
          simp [writeLoop, h1, h2, hw]
        rw [h4]
        simp [countEv]
        omega
      · by_cases h3 : i2c_putchar_res (bus.putStatus (st.np + 1) reg) ≠ 0
        · simp [writeLoop, h1, h2, h3, countEv]
        · rcases hw : writeData bus buf len 0 (st.np + 2) with ⟨e, tr⟩
          have hst := writeData_start bus buf len 0 (st.np + 2)
          rw [hw] at hst
          simp [writeLoop, h1, h2, h3, hw, countEv, hst]

theorem writeLoop_startfail (bus : Bus) (slv reg len : Nat) (buf : Nat → Nat)
    (hs : ∀ n, i2c_start_res (bus.startStatus n) ≠ 0) :
    ∀ r st, (writeLoop bus slv reg len buf r st).1 = WExit.startFail ∧
      countEv Ev.start (writeLoop bus slv reg len buf r st).2 = r + 1 := by
  intro r
  induction r with
  | zero => intro st; simp [writeLoop, hs, countEv]
  | succ r ih =>
    intro st
    rcases hw : writeLoop bus slv reg len buf r ⟨st.ns + 1, st.np, st.ng⟩ with ⟨e, tr⟩
    have hx := ih ⟨st.ns + 1, st.np, st.ng⟩
    rw [hw] at hx
    simp [writeLoop, hs, hw, countEv, hx.1, hx.2]
    omega

theorem writeLoop_allnack (bus : Bus) (slv reg len : Nat) (buf : Nat → Nat)
    (hs : ∀ n, bus.startStatus n = TW_START ∨ bus.startStatus n = TW_REP_START)
    (hp : ∀ n, bus.putStatus n ((slv * 2 + TW_WRITE) % 256) = TW_MT_SLA_NACK) :
    ∀ r st, (writeLoop bus slv reg len buf r st).1 = WExit.addrFail ∧
      countEv Ev.start (writeLoop bus slv reg len buf r st).2 = r + 1 := by
  have hs0 : ∀ n, ¬ i2c_start_res (bus.startStatus n) ≠ 0 := by
    intro n
    rcases hs n with h | h <;> simp [h, i2c_start_res]
  have hp1 : ∀ n, i2c_putchar_res (bus.putStatus n ((slv * 2 + TW_WRITE) % 256)) ≠ 0 := by
    intro n
    rw [hp n]
    decide
  intro r
  induction r with
  | zero => intro st; simp [writeLoop, hs0, hp1, countEv]
  | succ r ih =>
    intro st
    rcases hw : writeLoop bus slv reg len buf r ⟨st.ns + 1, st.np + 1, st.ng⟩ with ⟨e, tr⟩
    have hx := ih ⟨st.ns + 1, st.np + 1, st.ng⟩
    rw [hw] at hx
    simp [writeLoop, hs0, hp1, hw, countEv, hx.1, hx.2]
    omega

theorem writeLoop_regFail (bus : Bus) (slv reg len : Nat) (buf : Nat → Nat) :
    ∀ r st, (writeLoop bus slv reg len buf r st).1 = WExit.regFail →
      ∃ pre, (writeLoop bus slv reg len buf r st).2 =
        pre ++ [Ev.start, Ev.put ((slv * 2 + TW_WRITE) % 256), Ev.put reg] := by
  intro r
  induction r with
  | zero =>
    intro st
    by_cases h1 : i2c_start_res (bus.startStatus st.ns) ≠ 0
    · simp [writeLoop, h1]
    · by_cases h2 : i2c_putchar_res (bus.putStatus st.np ((slv * 2 + TW_WRITE) % 256)) ≠ 0
      · simp [writeLoop, h1, h2]
      · by_cases h3 : i2c_putchar_res (bus.putStatus (st.np + 1) reg) ≠ 0
        · intro _
          refine ⟨[], ?_⟩
          simp [writeLoop, h1, h2, h3]
        · rcases hw : writeData bus buf len 0 (st.np + 2) with ⟨e, tr⟩
          have hex := writeData_exit bus buf len 0 (st.np + 2)
          rw [hw] at hex
          rcases hex with he | he <;> subst he <;> simp [writeLoop, h1, h2, h3, hw]
  | succ r ih =>
    intro st
    by_cases h1 : i2c_start_res (bus.startStatus st.ns) ≠ 0
    · rcases hw : writeLoop bus slv reg len buf r ⟨st.ns + 1, st.np, st.ng⟩ with ⟨e, tr⟩
      have hx := ih ⟨st.ns + 1, st.np, st.ng⟩
      rw [hw] at hx
      simp only at hx
      have h4 : writeLoop bus slv reg len buf (r + 1) st = (e, Ev.start :: tr) := by
        simp [writeLoop, h1, hw]
      rw [h4]
      intro he
      rcases hx (by simpa using he) with ⟨pre, hp2⟩
      refine ⟨Ev.start :: pre, ?_⟩
      simp [hp2]
    · by_cases h2 : i2c_putchar_res (bus.putStatus st.np ((slv * 2 + TW_WRITE) % 256)) ≠ 0
      · rcases hw : writeLoop bus slv reg len buf r ⟨st.ns + 1, st.np + 1, st.ng⟩ with ⟨e, tr⟩
        have hx := ih ⟨st.ns + 1, st.np + 1, st.ng⟩
        rw [hw] at hx
        simp only at hx
        have h4 : writeLoop bus slv reg len buf (r + 1) st =
            (e, Ev.start :: Ev.put ((slv * 2 + TW_WRITE) % 256) :: tr) := by
          simp [writeLoop, h1, h2, hw]
        rw [h4]
        intro he
        rcases hx (by simpa using he) with ⟨pre, hp2⟩
        refine ⟨Ev.start :: Ev.put ((slv * 2 + TW_WRITE) % 256) :: pre, ?_⟩
        simp [hp2]
      · by_cases h3 : i2c_putchar_res (bus.putStatus (st.np + 1) reg) ≠ 0
        · intro _
          refine ⟨[], ?_⟩
          simp [writeLoop, h1, h2, h3]
        · rcases hw : writeData bus buf len 0 (st.np + 2) with ⟨e, tr⟩
          have hex := writeData_exit bus buf len 0 (st.np + 2)
          rw [hw] at hex
          rcases hex with he | he <;> subst he <;> simp [writeLoop, h1, h2, h3, hw]

theorem readData_stop (bus : Bus) :
    ∀ len i ng buf, countEv Ev.stop (readData bus len i ng buf).1 = 1 := by
  intro len
  induction len with
  | zero => intro i ng buf; rfl
  | succ n ih =>
    intro i ng buf
    rcases n with _ | m
    · rfl
    · rcases hr : readData bus (m + 1) (i + 1) (ng + 1)
        (setByte buf i (bus.getByte ng % 256)) with ⟨tr, buf2⟩
      have hx := ih (i + 1) (ng + 1) (setByte buf i (bus.getByte ng % 256))
      rw [hr] at hx
      simp only at hx
      simp [readData, hr, countEv, hx]

theorem readData_start (bus : Bus) :
    ∀ len i ng buf, countEv Ev.start (readData bus len i ng buf).1 = 0 := by
  intro len
  induction len with
  | zero => intro i ng buf; rfl
  | succ n ih =>
    intro i ng buf
    rcases n with _ | m
    · rfl
    · rcases hr : readData bus (m + 1) (i + 1) (ng + 1)
        (setByte buf i (bus.getByte ng % 256)) with ⟨tr, buf2⟩
      have hx := ih (i + 1) (ng + 1) (setByte buf i (bus.getByte ng % 256))
      rw [hr] at hx
      simp only at hx
      simp [readData, hr, countEv, hx]

theorem readData_getEvents (bus : Bus) :
    ∀ len i ng buf, 1 ≤ len →
      getEvents (readData bus len i ng buf).1 =
        List.replicate (len - 1) Ev.getAck ++ [Ev.getNack] := by
  intro len
  induction len with
  | zero => intro i ng buf h; omega
  | succ n ih =>
    intro i ng buf _
    rcases n with _ | m
    · rfl
    · rcases hr : readData bus (m + 1) (i + 1) (ng + 1)
        (setByte buf i (bus.getByte ng % 256)) with ⟨tr, buf2⟩
      have hx := ih (i + 1) (ng + 1) (setByte buf i (bus.getByte ng % 256)) (by omega)
      rw [hr] at hx
      simp only at hx
      simp [readData, hr, getEvents, hx, List.replicate_succ]

theorem readData_buf (bus : Bus) :
    ∀ len i ng buf j, 1 ≤ len →
      (readData bus len i ng buf).2 j =
        if i ≤ j ∧ j < i + len then bus.getByte (ng + (j - i)) % 256 else buf j := by
  intro len
  induction len with
  | zero => intro i ng buf j h; omega
  | succ n ih =>
    intro i ng buf j _
    rcases n with _ | m
    · have h4 : (readData bus 1 i ng buf).2 = setByte buf i (bus.getByte ng % 256) := rfl
      rw [h4]
      unfold setByte
      by_cases hj : j = i
      · subst hj
        have h5 : ng + (j - j) = ng := by omega
        simp [h5]
      · have h6 : ¬ (i ≤ j ∧ j < i + 1) := by omega
        simp [hj, h6]
    · rcases hr : readData bus (m + 1) (i + 1) (ng + 1)
        (setByte buf i (bus.getByte ng % 256)) with ⟨tr, buf2⟩
      have hx := ih (i + 1) (ng + 1) (setByte buf i (bus.getByte ng % 256)) j (by omega)
      rw [hr] at hx
      simp only at hx
      have h4 : (readData bus (m + 1 + 1) i ng buf).2 = buf2 := by
        simp [readData, hr]
      rw [h4, hx]
      by_cases hj1 : i + 1 ≤ j ∧ j < i + 1 + (m + 1)
      · have hj2 : i ≤ j ∧ j < i + (m + 1 + 1) := by omega
        have h5 : ng + 1 + (j - (i + 1)) = ng + (j - i) := by omega
        simp [hj1, hj2, h5]
      · by_cases hj : j = i
        · subst hj
          have hj2 : j ≤ j ∧ j < j + (m + 1 + 1) := by omega
          have h5 : ng + (j - j) = ng := by omega
          simp [hj1, hj2, setByte, h5]
        · have hj2 : ¬ (i ≤ j ∧ j < i + (m + 1 + 1)) := by omega
          simp [hj1, hj2, setByte, hj]

theorem readTail_exit (bus : Bus) (slv reg len : Nat) (buf : Nat → Nat) (st : BusSt) :
    (readTail bus slv reg len buf st).1 = RExit.success ∨
    (readTail bus slv reg len buf st).1 = RExit.regFail ∨
    (readTail bus slv reg len buf st).1 = RExit.rstartFail ∨
    (readTail bus slv reg len buf st).1 = RExit.readAddrFail := by
  rcases hr : readData bus len 0 st.ng buf with ⟨tr, buf2⟩
  simp only [readTail]
  split_ifs <;> simp_all

theorem readTail_stop (bus : Bus) (slv reg len : Nat) (buf : Nat → Nat) (st : BusSt) :
    countEv Ev.stop (readTail bus slv reg len buf st).2.1 =
      if (readTail bus slv reg len buf st).1 = RExit.success then 1 else 0 := by
  rcases hr : readData bus len 0 st.ng buf with ⟨tr, buf2⟩
  have hst := readData_stop bus len 0 st.ng buf
  rw [hr] at hst
  simp only at hst
  simp only [readTail]
  split_ifs <;> simp_all [countEv]

theorem readTail_start_le (bus : Bus) (slv reg len : Nat) (buf : Nat → Nat) (st : BusSt) :
    countEv Ev.start (readTail bus slv reg len buf st).2.1 ≤ 1 := by
  rcases hr : readData bus len 0 st.ng buf with ⟨tr, buf2⟩
  have hst := readData_start bus len 0 st.ng buf
  rw [hr] at hst
  simp only at hst
  simp only [readTail]
  split_ifs <;> simp [countEv, hr, hst]

theorem readTail_fail_buf (bus : Bus) (slv reg len : Nat) (buf : Nat → Nat) (st : BusSt) :
    (readTail bus slv reg len buf st).1 ≠ RExit.success →
      (readTail bus slv reg len buf st).2.2 = buf := by
  rcases hr : readData bus len 0 st.ng buf with ⟨tr, buf2⟩
  simp only [readTail]
  split_ifs <;> simp_all

theorem readTail_regFail (bus : Bus) (slv reg len : Nat) (buf : Nat → Nat) (st : BusSt) :
    (readTail bus slv reg len buf st).1 = RExit.regFail →
      (readTail bus slv reg len buf st).2.1 = [Ev.put reg] := by
  rcases hr : readData bus len 0 st.ng buf with ⟨tr, buf2⟩
  simp only [readTail]
  split_ifs <;> simp_all

theorem readTail_success (bus : Bus) (slv reg len : Nat) (buf : Nat → Nat) (st : BusSt) :
    (readTail bus slv reg len buf st).1 = RExit.success →
      (readTail bus slv reg len buf st).2.1 =
        Ev.put reg :: Ev.start :: Ev.put ((slv * 2 + TW_READ) % 256) ::
          (readData bus len 0 st.ng buf).1 ∧
      (readTail bus slv reg len buf st).2.2 = (readData bus len 0 st.ng buf).2 := by
  rcases hr : readData bus len 0 st.ng buf with ⟨tr, buf2⟩
  simp only [readTail]
  split_ifs <;> simp [hr]

theorem readLoop_stop (bus : Bus) (slv reg len : Nat) (buf : Nat → Nat) :
    ∀ r st, countEv Ev.stop (readLoop bus slv reg len buf r st).2.1 =
      if rcode (readLoop bus slv reg len buf r st).1 = 0 ∨
          rcode (readLoop bus slv reg len buf r st).1 = 2 then 1 else 0 := by
  intro r
  induction r with
  | zero =>
    intro st
    by_cases h1 : i2c_start_res (bus.startStatus st.ns) ≠ 0
    · simp [readLoop, h1, countEv, rcode]
    · by_cases h2 : i2c_putchar_res (bus.putStatus st.np ((slv * 2 + TW_WRITE) % 256)) ≠ 0
      · simp [readLoop, h1, h2, countEv, rcode]
      · rcases ht : readTail bus slv reg len buf st with ⟨e, tr, buf2⟩
        have hst := readTail_stop bus slv reg len buf st
        have hex := readTail_exit bus slv reg len buf st
        rw [ht] at hst hex
        simp only at hst hex
        have h4 : readLoop bus slv reg len buf 0 st =
            (e, Ev.start :: Ev.put ((slv * 2 + TW_WRITE) % 256) :: tr, buf2) := by
          simp [readLoop, h1, h2, ht]
        rw [h4]
        rcases hex with he | he | he | he <;> subst he <;> simp [countEv, hst, rcode]
  | succ n ih =>
    intro st
    rcases n with _ | m
    · by_cases h1 : i2c_start_res (bus.startStatus st.ns) ≠ 0
      · simp [readLoop, h1, countEv, rcode]
      · by_cases h2 : i2c_putchar_res (bus.putStatus st.np ((slv * 2 + TW_WRITE) % 256)) ≠ 0
        · simp [readLoop, h1, h2, countEv, rcode]
        · rcases ht : readTail bus slv reg len buf st with ⟨e, tr, buf2⟩
          have hst := readTail_stop bus slv reg len buf st
          have hex := readTail_exit bus slv reg len buf st
          rw [ht] at hst hex
          simp only at hst hex
          have h4 : readLoop bus slv reg len buf 1 st =
              (e, Ev.start :: Ev.put ((slv * 2 + TW_WRITE) % 256) :: tr, buf2) := by
            simp [readLoop, h1, h2, ht]
          rw [h4]
          rcases hex with he | he | he | he <;> subst he <;> simp [countEv, hst, rcode]
    · by_cases h1 : i2c_start_res (bus.startStatus st.ns) ≠ 0
      · rcases hw : readLoop bus slv reg len buf (m + 1) ⟨st.ns + 1, st.np, st.ng⟩ with
          ⟨e, tr, buf2⟩
        have hx := ih ⟨st.ns + 1, st.np, st.ng⟩
        rw [hw] at hx
        simp only at hx
        have h4 : readLoop bus slv reg len buf (m + 1 + 1) st = (e, Ev.start :: tr, buf2) := by
          simp [readLoop, h1, hw]
        rw [h4]
        simpa [countEv] using hx
      · by_cases h2 : i2c_putchar_res (bus.putStatus st.np ((slv * 2 + TW_WRITE) % 256)) ≠ 0
        · rcases hw : readLoop bus slv reg len buf (m + 1) ⟨st.ns + 1, st.np + 1, st.ng⟩ with
            ⟨e, tr, buf2⟩
          have hx := ih ⟨st.ns + 1, st.np + 1, st.ng⟩
          rw [hw] at hx
          simp only at hx
          have h4 : readLoop bus slv reg len buf (m + 1 + 1) st =
              (e, Ev.start :: Ev.put ((slv * 2 + TW_WRITE) % 256) :: tr, buf2) := by
            simp [readLoop, h1, h2, hw]
          rw [h4]
          simpa [countEv] using hx
        · rcases ht : readTail bus slv reg len buf st with ⟨e, tr, buf2⟩
          have hst := readTail_stop bus slv reg len buf st
          have hex := readTail_exit bus slv reg len buf st
          rw [ht] at hst hex
          simp only at hst hex
          have h4 : readLoop bus slv reg len buf (m + 1 + 1) st =
              (e, Ev.start :: Ev.put ((slv * 2 + TW_WRITE) % 256) :: tr, buf2) := by
            simp [readLoop, h1, h2, ht]
          rw [h4]
          rcases hex with he | he | he | he <;> subst he <;> simp [countEv, hst, rcode]

theorem readLoop_fail_buf (bus : Bus) (slv reg len : Nat) (buf : Nat → Nat) :
    ∀ r st, (readLoop bus slv reg len buf r st).1 ≠ RExit.success →
      (readLoop bus slv reg len buf r st).2.2 = buf := by
  intro r
  induction r with
  | zero =>
    intro st
    by_cases h1 : i2c_start_res (bus.startStatus st.ns) ≠ 0
    · simp [readLoop, h1]
    · by_cases h2 : i2c_putchar_res (bus.putStatus st.np ((slv * 2 + TW_WRITE) % 256)) ≠ 0
      · simp [readLoop, h1, h2]
      · rcases ht : readTail bus slv reg len buf st with ⟨e, tr, buf2⟩
        have hf := readTail_fail_buf bus slv reg len buf st
        rw [ht] at hf
        simp only at hf
        have h4 : readLoop bus slv reg len buf 0 st =
            (e, Ev.start :: Ev.put ((slv * 2 + TW_WRITE) % 256) :: tr, buf2) := by
          simp [readLoop, h1, h2, ht]
        rw [h4]
        intro he
        simpa using hf (by simpa using he)
  | succ n ih =>
    intro st
    rcases n with _ | m
    · by_cases h1 : i2c_start_res (bus.startStatus st.ns) ≠ 0
      · simp [readLoop, h1]
      · by_cases h2 : i2c_putchar_res (bus.putStatus st.np ((slv * 2 + TW_WRITE) % 256)) ≠ 0
        · simp [readLoop, h1, h2]
        · rcases ht : readTail bus slv reg len buf st with ⟨e, tr, buf2⟩
          have hf := readTail_fail_buf bus slv reg len buf st
          rw [ht] at hf
          simp only at hf
          have h4 : readLoop bus slv reg len buf 1 st =
              (e, Ev.start :: Ev.put ((slv * 2 + TW_WRITE) % 256) :: tr, buf2) := by
            simp [readLoop, h1, h2, ht]
          rw [h4]
          intro he
          simpa using hf (by simpa using he)
    · by_cases h1 : i2c_start_res (bus.startStatus st.ns) ≠ 0
      · rcases hw : readLoop bus slv reg len buf (m + 1) ⟨st.ns + 1, st.np, st.ng⟩ with
          ⟨e, tr, buf2⟩
        have hx := ih ⟨st.ns + 1, st.np, st.ng⟩
        rw [hw] at hx
        simp only at hx
        have h4 : readLoop bus slv reg len buf (m + 1 + 1) st = (e, Ev.start :: tr, buf2) := by
          simp [readLoop, h1, hw]
        rw [h4]
        intro he
        simpa using hx (by simpa using he)
      · by_cases h2 : i2c_putchar_res (bus.putStatus st.np ((slv * 2 + TW_WRITE) % 256)) ≠ 0
        · rcases hw : readLoop bus slv reg len buf (m + 1) ⟨st.ns + 1, st.np + 1, st.ng⟩ with
            ⟨e, tr, buf2⟩
          have hx := ih ⟨st.ns + 1, st.np + 1, st.ng⟩
          rw [hw] at hx
          simp only at hx
          have h4 : readLoop bus slv reg len buf (m + 1 + 1) st =
              (e, Ev.start :: Ev.put ((slv * 2 + TW_WRITE) % 256) :: tr, buf2) := by
            simp [readLoop, h1, h2, hw]
          rw [h4]
          intro he
          simpa using hx (by simpa using he)
        · rcases ht : readTail bus slv reg len buf st with ⟨e, tr, buf2⟩
          have hf := readTail_fail_buf bus slv reg len buf st
          rw [ht] at hf
          simp only at hf
          have h4 : readLoop bus slv reg len buf (m + 1 + 1) st =
              (e, Ev.start :: Ev.put ((slv * 2 + TW_WRITE) % 256) :: tr, buf2) := by
            simp [readLoop, h1, h2, ht]
          rw [h4]
          intro he
          simpa using hf (by simpa using he)

theorem readLoop_success (bus : Bus) (slv reg len : Nat) (buf : Nat → Nat) :
    ∀ r st, (readLoop bus slv reg len buf r st).1 = RExit.success →
      getEvents (readLoop bus slv reg len buf r st).2.1 =
        getEvents (readData bus len 0 st.ng buf).1 ∧
      (readLoop bus slv reg len buf r st).2.2 = (readData bus len 0 st.ng buf).2 := by
  intro r
  induction r with
  | zero =>
    intro st
    by_cases h1 : i2c_start_res (bus.startStatus st.ns) ≠ 0
    · simp [readLoop, h1]
    · by_cases h2 : i2c_putchar_res (bus.putStatus st.np ((slv * 2 + TW_WRITE) % 256)) ≠ 0
      · simp [readLoop, h1, h2]
      · rcases ht : readTail bus slv reg len buf st with ⟨e, tr, buf2⟩
        have hsu := readTail_success bus slv reg len buf st
        rw [ht] at hsu
        simp only at hsu
        have h4 : readLoop bus slv reg len buf 0 st =
            (e, Ev.start :: Ev.put ((slv * 2 + TW_WRITE) % 256) :: tr, buf2) := by
          simp [readLoop, h1, h2, ht]
        rw [h4]
        intro he
        have he2 : e = RExit.success := by simpa using he
        rcases hsu he2 with ⟨htr, hbf⟩
        subst htr
        exact ⟨by simp [getEvents], by simpa using hbf⟩
  | succ n ih =>
    intro st
    rcases n with _ | m
    · by_cases h1 : i2c_start_res (bus.startStatus st.ns) ≠ 0
      · simp [readLoop, h1]
      · by_cases h2 : i2c_putchar_res (bus.putStatus st.np ((slv * 2 + TW_WRITE) % 256)) ≠ 0
        · simp [readLoop, h1, h2]
        · rcases ht : readTail bus slv reg len buf st with ⟨e, tr, buf2⟩
          have hsu := readTail_success bus slv reg len buf st
          rw [ht] at hsu
          simp only at hsu
          have h4 : readLoop bus slv reg len buf 1 st =
              (e, Ev.start :: Ev.put ((slv * 2 + TW_WRITE) % 256) :: tr, buf2) := by
            simp [readLoop, h1, h2, ht]
          rw [h4]
          intro he
          have he2 : e = RExit.success := by simpa using he
          rcases hsu he2 with ⟨htr, hbf⟩
          subst htr
          exact ⟨by simp [getEvents], by simpa using hbf⟩
    · by_cases h1 : i2c_start_res (bus.startStatus st.ns) ≠ 0
      · rcases hw : readLoop bus slv reg len buf (m + 1) ⟨st.ns + 1, st.np, st.ng⟩ with
          ⟨e, tr, buf2⟩
        have hx := ih ⟨st.ns + 1, st.np, st.ng⟩
        rw [hw] at hx
        simp only at hx
        have h4 : readLoop bus slv reg len buf (m + 1 + 1) st = (e, Ev.start :: tr, buf2) := by
          simp [readLoop, h1, hw]
        rw [h4]
        intro he
        rcases hx (by simpa using he) with ⟨htr, hbf⟩
        exact ⟨by simpa [getEvents] using htr, by simpa using hbf⟩
      · by_cases h2 : i2c_putchar_res (bus.putStatus st.np ((slv * 2 + TW_WRITE) % 256)) ≠ 0
        · rcases hw : readLoop bus slv reg len buf (m + 1) ⟨st.ns + 1, st.np + 1, st.ng⟩ with
            ⟨e, tr, buf2⟩
          have hx := ih ⟨st.ns + 1, st.np + 1, st.ng⟩
          rw [hw] at hx
          simp only at hx
          have h4 : readLoop bus slv reg len buf (m + 1 + 1) st =
              (e, Ev.start :: Ev.put ((slv * 2 + TW_WRITE) % 256) :: tr, buf2) := by
            simp [readLoop, h1, h2, hw]
          rw [h4]
          intro he
          rcases hx (by simpa using he) with ⟨htr, hbf⟩
          exact ⟨by simpa [getEvents] using htr, by simpa using hbf⟩
        · rcases ht : readTail bus slv reg len buf st with ⟨e, tr, buf2⟩
          have hsu := readTail_success bus slv reg len buf st
          rw [ht] at hsu
          simp only at hsu
          have h4 : readLoop bus slv reg len buf (m + 1 + 1) st =
              (e, Ev.start :: Ev.put ((slv * 2 + TW_WRITE) % 256) :: tr, buf2) := by
            simp [readLoop, h1, h2, ht]
          rw [h4]
          intro he
          have he2 : e = RExit.success := by simpa using he
          rcases hsu he2 with ⟨htr, hbf⟩
          subst htr
          exact ⟨by simp [getEvents], by simpa using hbf⟩

theorem readLoop_start_le (bus : Bus) (slv reg len : Nat) (buf : Nat → Nat) :
    ∀ r st, 1 ≤ r → countEv Ev.start (readLoop bus slv reg len buf r st).2.1 ≤ r + 1 := by
  intro r
  induction r with
  | zero => intro st h; omega
  | succ n ih =>
    intro st _
    rcases n with _ | m
    · by_cases h1 : i2c_start_res (bus.startStatus st.ns) ≠ 0
      · simp [readLoop, h1, countEv]
      · by_cases h2 : i2c_putchar_res (bus.putStatus st.np ((slv * 2 + TW_WRITE) % 256)) ≠ 0
        · simp [readLoop, h1, h2, countEv]
        · rcases ht : readTail bus slv reg len buf st with ⟨e, tr, buf2⟩
          have hle := readTail_start_le bus slv reg len buf st
          rw [ht] at hle
          simp only at hle
          have h4 : readLoop bus slv reg len buf 1 st =
              (e, Ev.start :: Ev.put ((slv * 2 + TW_WRITE) % 256) :: tr, buf2) := by
            simp [readLoop, h1, h2, ht]
          rw [h4]
          simp [countEv]
          omega
    · by_cases h1 : i2c_start_res (bus.startStatus st.ns) ≠ 0
      · rcases hw : readLoop bus slv reg len buf (m + 1) ⟨st.ns + 1, st.np, st.ng⟩ with
          ⟨e, tr, buf2⟩
        have hx := ih ⟨st.ns + 1, st.np, st.ng⟩ (by omega)
        rw [hw] at hx
        simp only at hx
        have h4 : readLoop bus slv reg len buf (m + 1 + 1) st = (e, Ev.start :: tr, buf2) := by
          simp [readLoop, h1, hw]
        rw [h4]
        simp [countEv]
        omega
      · by_cases h2 : i2c_putchar_res (bus.putStatus st.np ((slv * 2 + TW_WRITE) % 256)) ≠ 0
        · rcases hw : readLoop bus slv reg len buf (m + 1) ⟨st.ns + 1, st.np + 1, st.ng⟩ with
            ⟨e, tr, buf2⟩
          have hx := ih ⟨st.ns + 1, st.np + 1, st.ng⟩ (by omega)
          rw [hw] at hx
          simp only at hx
          have h4 : readLoop bus slv reg len buf (m + 1 + 1) st =
              (e, Ev.start :: Ev.put ((slv * 2 + TW_WRITE) % 256) :: tr, buf2) := by
            simp [readLoop, h1, h2, hw]
          rw [h4]
          simp [countEv]
          omega
        · rcases ht : readTail bus slv reg len buf st with ⟨e, tr, buf2⟩
          have hle := readTail_start_le bus slv reg len buf st
          rw [ht] at hle
          simp only at hle
          have h4 : readLoop bus slv reg len buf (m + 1 + 1) st =
              (e, Ev.start :: Ev.put ((slv * 2 + TW_WRITE) % 256) :: tr, buf2) := by
            simp [readLoop, h1, h2, ht]
          rw [h4]
          simp [countEv]
          omega

theorem readLoop_startfail (bus : Bus) (slv reg len : Nat) (buf : Nat → Nat)
    (hs : ∀ n, i2c_start_res (bus.startStatus n) ≠ 0) :
    ∀ r st, 1 ≤ r → (readLoop bus slv reg len buf r st).1 = RExit.startFail ∧
      countEv Ev.start (readLoop bus slv reg len buf r st).2.1 = r := by
  intro r
  induction r with
  | zero => intro st h; omega
  | succ n ih =>
    intro st _
    rcases n with _ | m
    · simp [readLoop, hs, countEv]
    · rcases hw : readLoop bus slv reg len buf (m + 1) ⟨st.ns + 1, st.np, st.ng⟩ with
        ⟨e, tr, buf2⟩
      have hx := ih ⟨st.ns + 1, st.np, st.ng⟩ (by omega)
      rw [hw] at hx
      simp only at hx
      have h4 : readLoop bus slv reg len buf (m + 1 + 1) st = (e, Ev.start :: tr, buf2) := by
        simp [readLoop, hs, hw]
      rw [h4]
      simp [countEv, hx.1, hx.2]
      omega

theorem readLoop_allnack (bus : Bus) (slv reg len : Nat) (buf : Nat → Nat)
    (hs : ∀ n, bus.startStatus n = TW_START ∨ bus.startStatus n = TW_REP_START)
    (hp : ∀ n, bus.putStatus n ((slv * 2 + TW_WRITE) % 256) = TW_MT_SLA_NACK) :
    ∀ r st, 1 ≤ r → (readLoop bus slv reg len buf r st).1 = RExit.addrFail ∧
      countEv Ev.start (readLoop bus slv reg len buf r st).2.1 = r := by
  have hs0 : ∀ n, ¬ i2c_start_res (bus.startStatus n) ≠ 0 := by
    intro n
    rcases hs n with h | h <;> simp [h, i2c_start_res]
  have hp1 : ∀ n, i2c_putchar_res (bus.putStatus n ((slv * 2 + TW_WRITE) % 256)) ≠ 0 := by
    intro n
    rw [hp n]
    decide
  intro r
  induction r with
  | zero => intro st h; omega
  | succ n ih =>
    intro st _
    rcases n with _ | m
    · simp [readLoop, hs0, hp1, countEv]
    · rcases hw : readLoop bus slv reg len buf (m + 1) ⟨st.ns + 1, st.np + 1, st.ng⟩ with
        ⟨e, tr, buf2⟩
      have hx := ih ⟨st.ns + 1, st.np + 1, st.ng⟩ (by omega)
      rw [hw] at hx
      simp only at hx
      have h4 : readLoop bus slv reg len buf (m + 1 + 1) st =
          (e, Ev.start :: Ev.put ((slv * 2 + TW_WRITE) % 256) :: tr, buf2) := by
        simp [readLoop, hs0, hp1, hw]
      rw [h4]
      simp [countEv, hx.1, hx.2]
      omega

theorem readLoop_regFail (bus : Bus) (slv reg len : Nat) (buf : Nat → Nat) :
    ∀ r st, (readLoop bus slv reg len buf r st).1 = RExit.regFail →
      ∃ pre, (readLoop bus slv reg len buf r st).2.1 =
        pre ++ [Ev.start, Ev.put ((slv * 2 + TW_WRITE) % 256), Ev.put reg] := by
  intro r
  induction r with
  | zero =>
    intro st
    by_cases h1 : i2c_start_res (bus.startStatus st.ns) ≠ 0
    · simp [readLoop, h1]
    · by_cases h2 : i2c_putchar_res (bus.putStatus st.np ((slv * 2 + TW_WRITE) % 256)) ≠ 0
      · simp [readLoop, h1, h2]
      · rcases ht : readTail bus slv reg len buf st with ⟨e, tr, buf2⟩
        have hrg := readTail_regFail bus slv reg len buf st
        rw [ht] at hrg
        simp only at hrg
        have h4 : readLoop bus slv reg len buf 0 st =
            (e, Ev.start :: Ev.put ((slv * 2 + TW_WRITE) % 256) :: tr, buf2) := by
          simp [readLoop, h1, h2, ht]
        rw [h4]
        intro he
        have htr := hrg (by simpa using he)
        subst htr
        exact ⟨[], by simp⟩
  | succ n ih =>
    intro st
    rcases n with _ | m
    · by_cases h1 : i2c_start_res (bus.startStatus st.ns) ≠ 0
      · simp [readLoop, h1]
      · by_cases h2 : i2c_putchar_res (bus.putStatus st.np ((slv * 2 + TW_WRITE) % 256)) ≠ 0
        · simp [readLoop, h1, h2]
        · rcases ht : readTail bus slv reg len buf st with ⟨e, tr, buf2⟩
          have hrg := readTail_regFail bus slv reg len buf st
          rw [ht] at hrg
          simp only at hrg
          have h4 : readLoop bus slv reg len buf 1 st =
              (e, Ev.start :: Ev.put ((slv * 2 + TW_WRITE) % 256) :: tr, buf2) := by
            simp [readLoop, h1, h2, ht]
          rw [h4]
          intro he
          have htr := hrg (by simpa using he)
          subst htr
          exact ⟨[], by simp⟩
    · by_cases h1 : i2c_start_res (bus.startStatus st.ns) ≠ 0
      · rcases hw : readLoop bus slv reg len buf (m + 1) ⟨st.ns + 1, st.np, st.ng⟩ with
          ⟨e, tr, buf2⟩
        have hx := ih ⟨st.ns + 1, st.np, st.ng⟩
        rw [hw] at hx
        simp only at hx
        have h4 : readLoop bus slv reg len buf (m + 1 + 1) st = (e, Ev.start :: tr, buf2) := by
          simp [readLoop, h1, hw]
        rw [h4]
        intro he
        rcases hx (by simpa using he) with ⟨pre, hp2⟩
        refine ⟨Ev.start :: pre, ?_⟩
        simp [hp2]
      · by_cases h2 : i2c_putchar_res (bus.putStatus st.np ((slv * 2 + TW_WRITE) % 256)) ≠ 0
        · rcases hw : readLoop bus slv reg len buf (m + 1) ⟨st.ns + 1, st.np + 1, st.ng⟩ with
            ⟨e, tr, buf2⟩
          have hx := ih ⟨st.ns + 1, st.np + 1, st.ng⟩
          rw [hw] at hx
          simp only at hx
          have h4 : readLoop bus slv reg len buf (m + 1 + 1) st =
              (e, Ev.start :: Ev.put ((slv * 2 + TW_WRITE) % 256) :: tr, buf2) := by
            simp [readLoop, h1, h2, hw]
          rw [h4]
          intro he
          rcases hx (by simpa using he) with ⟨pre, hp2⟩
          refine ⟨Ev.start :: Ev.put ((slv * 2 + TW_WRITE) % 256) :: pre, ?_⟩
          simp [hp2]
        · rcases ht : readTail bus slv reg len buf st with ⟨e, tr, buf2⟩
          have hrg := readTail_regFail bus slv reg len buf st
          rw [ht] at hrg
          simp only at hrg
          have h4 : readLoop bus slv reg len buf (m + 1 + 1) st =
              (e, Ev.start :: Ev.put ((slv * 2 + TW_WRITE) % 256) :: tr, buf2) := by
            simp [readLoop, h1, h2, ht]
          rw [h4]
          intro he
          have htr := hrg (by simpa using he)
          subst htr
          exact ⟨[], by simp⟩

theorem writeLoop_allack (bus : Bus) (slv reg len : Nat) (buf : Nat → Nat)
    (hs : ∀ n, i2c_start_res (bus.startStatus n) = 0)
    (hp : ∀ n b, i2c_putchar_res (bus.putStatus n b) = 0) :
    ∀ r st, writeLoop bus slv reg len buf r st =
      (WExit.success,
        Ev.start :: Ev.put ((slv * 2 + TW_WRITE) % 256) :: Ev.put reg ::
          (putsFrom buf len 0 ++ [Ev.stop])) := by
  intro r st
  have h1 : ¬ i2c_start_res (bus.startStatus st.ns) ≠ 0 := by simp [hs]
  have h2 : ¬ i2c_putchar_res (bus.putStatus st.np ((slv * 2 + TW_WRITE) % 256)) ≠ 0 := by
    simp [hp]
  have h3 : ¬ i2c_putchar_res (bus.putStatus (st.np + 1) reg) ≠ 0 := by simp [hp]
  have hd := writeData_allack bus buf hp len 0 (st.np + 2)
  cases r <;> simp [writeLoop, h1, h2, h3, hd]

theorem readLoop_allack (bus : Bus) (slv reg len : Nat) (buf : Nat → Nat)
    (hs : ∀ n, i2c_start_res (bus.startStatus n) = 0)
    (hp : ∀ n b, i2c_putchar_res (bus.putStatus n b) = 0) :
    ∀ r st, readLoop bus slv reg len buf r st =
      (RExit.success,
        Ev.start :: Ev.put ((slv * 2 + TW_WRITE) % 256) :: Ev.put reg :: Ev.start ::
          Ev.put ((slv * 2 + TW_READ) % 256) :: (readData bus len 0 st.ng buf).1,
        (readData bus len 0 st.ng buf).2) := by
  intro r st
  have h1 : ¬ i2c_start_res (bus.startStatus st.ns) ≠ 0 := by simp [hs]
  have h2 : ¬ i2c_putchar_res (bus.putStatus st.np ((slv * 2 + TW_WRITE) % 256)) ≠ 0 := by
    simp [hp]
  have ht : readTail bus slv reg len buf st =
      (RExit.success,
        Ev.put reg :: Ev.start :: Ev.put ((slv * 2 + TW_READ) % 256) ::
          (readData bus len 0 st.ng buf).1,
        (readData bus len 0 st.ng buf).2) := by
    rcases hr : readData bus len 0 st.ng buf with ⟨tr, buf2⟩
    simp [readTail, hs, hp, hr]
  rcases r with _ | r
  · simp [readLoop, h1, h2, ht]
  · rcases r with _ | r <;> simp [readLoop, h1, h2, ht]

/-- C4: for every environment, slave address, register address and buffer,
`i2c_write` and `i2c_read` called with `length == 0` return success (code 0)
immediately and generate no bus events at all — no Start, no byte transfer,
no Stop. -/
theorem C4_len_zero (bus : Bus) (slv adrs : Nat) (buf : Nat → Nat) :
    i2c_write bus slv 0 adrs buf = (WExit.success, []) ∧
    i2c_read bus slv 0 adrs buf = (RExit.success, [], buf) ∧
    wcode WExit.success = 0 ∧ rcode RExit.success = 0 := by
  refine ⟨?_, ?_, rfl, rfl⟩ <;> simp [i2c_write, i2c_read]

/-- C7 counterexample: `i2c_putchar` maps a slave NACK, a lost arbitration
and a bus error all to the same return value 1, so these three of the five
outcomes listed in the claim are not mutually distinguishable from the
returned value. -/
theorem C7_counterexample :
    i2c_putchar_res TW_MT_SLA_NACK = 1 ∧
    i2c_putchar_res TW_MT_ARB_LOST = 1 ∧
    i2c_putchar_res TW_BUS_ERROR = 1 ∧
    i2c_putchar_res TW_MT_SLA_NACK = i2c_putchar_res TW_MT_ARB_LOST := by
  decide

/-- C7 (amended): `i2c_putchar` classifies the hardware status into three
mutually distinguishable return values, not five: 0 exactly for the four ACK
statuses (address or data accepted), 1 exactly for the NACK statuses,
arbitration lost and bus error together (these are not distinguishable from
each other), and 2 for every unknown status. -/
theorem C7_classification (s : Nat) :
    (i2c_putchar_res s = 0 ↔
      s ∈ [TW_MT_SLA_ACK, TW_MT_DATA_ACK, TW_MR_SLA_ACK, TW_MR_DATA_ACK]) ∧
    (i2c_putchar_res s = 1 ↔
      s ∈ [TW_BUS_ERROR, TW_MT_SLA_NACK, TW_MT_DATA_NACK, TW_MT_ARB_LOST,
        TW_MR_SLA_NACK, TW_MR_DATA_NACK]) ∧
    (i2c_putchar_res s = 2 ↔
      s ∉ [TW_MT_SLA_ACK, TW_MT_DATA_ACK, TW_MR_SLA_ACK, TW_MR_DATA_ACK] ∧
      s ∉ [TW_BUS_ERROR, TW_MT_SLA_NACK, TW_MT_DATA_NACK, TW_MT_ARB_LOST,
        TW_MR_SLA_NACK, TW_MR_DATA_NACK]) := by
  unfold i2c_putchar_res
  split_ifs with h1 h2 <;>
    simp_all [TW_MT_SLA_ACK, TW_MT_DATA_ACK, TW_MR_SLA_ACK, TW_MR_DATA_ACK,
      TW_BUS_ERROR, TW_MT_SLA_NACK, TW_MT_DATA_NACK, TW_MT_ARB_LOST,
      TW_MR_SLA_NACK, TW_MR_DATA_NACK]
  all_goals omega

/-- C8: at each fault-injection point the two transactions return exactly the
status codes the claim lists — write: 0 success, 1 Start retries exhausted,
2 address-framing retries exhausted, 3 register-address byte rejected, 4 data
byte rejected; read: the same 0–3 at the same phases, plus the distinct codes
4 (Repeated Start refused) and 5 (read-direction address byte rejected) for
its read-address phase — and the exit-point-to-code maps of both functions
are injective, so every failure point is distinguishable from the returned
value alone. -/
theorem C8_exit_codes :
    wcode (i2c_write (okBus zeroBuf) 0x53 2 0x32 zeroBuf).1 = 0 ∧
    wcode (i2c_write startFailBus 0x53 2 0x32 zeroBuf).1 = 1 ∧
    wcode (i2c_write addrNackBus 0x53 2 0x32 zeroBuf).1 = 2 ∧
    wcode (i2c_write regNackBus 0x53 2 0x32 zeroBuf).1 = 3 ∧
    wcode (i2c_write thirdNackBus 0x53 2 0x32 zeroBuf).1 = 4 ∧
    rcode (i2c_read (okBus zeroBuf) 0x53 2 0x32 zeroBuf).1 = 0 ∧
    rcode (i2c_read startFailBus 0x53 2 0x32 zeroBuf).1 = 1 ∧
    rcode (i2c_read addrNackBus 0x53 2 0x32 zeroBuf).1 = 2 ∧
    rcode (i2c_read regNackBus 0x53 2 0x32 zeroBuf).1 = 3 ∧
    rcode (i2c_read rstartFailBus 0x53 2 0x32 zeroBuf).1 = 4 ∧
    rcode (i2c_read thirdNackBus 0x53 2 0x32 zeroBuf).1 = 5 ∧
    (∀ a b : WExit, wcode a = wcode b → a = b) ∧
    (∀ a b : RExit, rcode a = rcode b → a = b) := by
  have hsf : ∀ m, i2c_start_res (startFailBus.startStatus m) ≠ 0 := by
    intro m
    simp [startFailBus, i2c_start_res, TW_BUS_ERROR, TW_START, TW_REP_START]
  have hans : ∀ m, addrNackBus.startStatus m = TW_START ∨
      addrNackBus.startStatus m = TW_REP_START := fun m => Or.inl rfl
  have hanp : ∀ m, addrNackBus.putStatus m ((83 * 2 + TW_WRITE) % 256) = TW_MT_SLA_NACK :=
    fun m => rfl
  have hw1 := writeLoop_startfail startFailBus 83 50 2 zeroBuf hsf MAX_RESTARTS ⟨0, 0, 0⟩
  have hr1 := readLoop_startfail startFailBus 83 50 2 zeroBuf hsf MAX_RESTARTS ⟨0, 0, 0⟩
    (by decide)
  have hw2 := writeLoop_allnack addrNackBus 83 50 2 zeroBuf hans hanp MAX_RESTARTS ⟨0, 0, 0⟩
  have hr2 := readLoop_allnack addrNackBus 83 50 2 zeroBuf hans hanp MAX_RESTARTS ⟨0, 0, 0⟩
    (by decide)
  have hu1 : i2c_write startFailBus 0x53 2 0x32 zeroBuf =
      writeLoop startFailBus 83 50 2 zeroBuf MAX_RESTARTS ⟨0, 0, 0⟩ := by
    simp [i2c_write]
  have hu2 : i2c_read startFailBus 0x53 2 0x32 zeroBuf =
      readLoop startFailBus 83 50 2 zeroBuf MAX_RESTARTS ⟨0, 0, 0⟩ := by
    simp [i2c_read]
  have hu3 : i2c_write addrNackBus 0x53 2 0x32 zeroBuf =
      writeLoop addrNackBus 83 50 2 zeroBuf MAX_RESTARTS ⟨0, 0, 0⟩ := by
    simp [i2c_write]
  have hu4 : i2c_read addrNackBus 0x53 2 0x32 zeroBuf =
      readLoop addrNackBus 83 50 2 zeroBuf MAX_RESTARTS ⟨0, 0, 0⟩ := by
    simp [i2c_read]
  refine ⟨by decide, ?_, ?_, by decide, by decide, by decide, ?_, ?_, by decide, by decide,
    by decide, by decide, by decide⟩
  · rw [hu1, hw1.1]
    rfl
  · rw [hu3, hw2.1]
    rfl
  · rw [hu2, hr1.1]
    rfl
  · rw [hu4, hr2.1]
    rfl

/-- C8 witness: the injectivity components of `C8_exit_codes` applied at a
concrete pair of exit points. -/
theorem C8_exit_codes_witness :
    WExit.startFail = WExit.startFail ∧ RExit.readAddrFail = RExit.readAddrFail :=
  ⟨(C8_exit_codes.2.2.2.2.2.2.2.2.2.2.2).1 WExit.startFail WExit.startFail (by decide),
   (C8_exit_codes.2.2.2.2.2.2.2.2.2.2.2).2 RExit.readAddrFail RExit.readAddrFail (by decide)⟩

/-- C1 counterexample: with a slave that ACKs its address and NACKs the
register-address byte, `i2c_write` with `len = 1` touches the bus (its trace
is nonempty) and returns code 3 without ever issuing a Stop condition, so the
"Stop exactly once on every exit path" invariant fails as stated. -/
theorem C1_counterexample :
    (i2c_write regNackBus 0x53 1 0x2D zeroBuf).1 = WExit.regFail ∧
    (i2c_write regNackBus 0x53 1 0x2D zeroBuf).2 ≠ [] ∧
    countEv Ev.stop (i2c_write regNackBus 0x53 1 0x2D zeroBuf).2 = 0 := by
  decide

/-- C2 counterexample: against a slave that accepts every Start and NACKs its
address byte on every attempt, `i2c_write` does return the address-framing
code 2, but only after `MAX_RESTARTS + 1 = 21` Start attempts (the source
uses a post-decrement in the `restarts-- == 0` test), not after exactly
`MAX_RESTARTS = 20` as claimed. -/
theorem C2_counterexample :
    (i2c_write addrNackBus 0x53 1 0x2D zeroBuf).1 = WExit.addrFail ∧
    wcode (i2c_write addrNackBus 0x53 1 0x2D zeroBuf).1 = 2 ∧
    countEv Ev.start (i2c_write addrNackBus 0x53 1 0x2D zeroBuf).2 = MAX_RESTARTS + 1 ∧
    MAX_RESTARTS + 1 ≠ MAX_RESTARTS := by
  have hans : ∀ m, addrNackBus.startStatus m = TW_START ∨
      addrNackBus.startStatus m = TW_REP_START := fun m => Or.inl rfl
  have hanp : ∀ m, addrNackBus.putStatus m ((83 * 2 + TW_WRITE) % 256) = TW_MT_SLA_NACK :=
    fun m => rfl
  have hw2 := writeLoop_allnack addrNackBus 83 45 1 zeroBuf hans hanp MAX_RESTARTS ⟨0, 0, 0⟩
  have hu : i2c_write addrNackBus 0x53 1 0x2D zeroBuf =
      writeLoop addrNackBus 83 45 1 zeroBuf MAX_RESTARTS ⟨0, 0, 0⟩ := by
    simp [i2c_write]
  refine ⟨?_, ?_, ?_, by decide⟩
  · rw [hu, hw2.1]
  · rw [hu, hw2.1]
    rfl
  · rw [hu]
    exact hw2.2

/-- C1 (amended): for calls with a nonzero byte-value length (`len = 0`
performs no bus activity at all, see `C4_len_zero`), a Stop condition is
issued exactly once when `i2c_write` returns code 0, 1 or 2 (success,
Start-retry exhaustion, address-framing exhaustion) and never when it returns
3 or 4 (register-address or data byte rejected), and exactly once when
`i2c_read` returns code 0 or 2 and never when it returns 1, 3, 4 or 5 — so
the claimed "Stop exactly once on every exit path" invariant holds only on
those exits. -/
theorem C1_stop_on_codes (bus : Bus) (slv len adrs : Nat) (buf : Nat → Nat)
    (h : len % 256 ≠ 0) :
    countEv Ev.stop (i2c_write bus slv len adrs buf).2 =
      (if wcode (i2c_write bus slv len adrs buf).1 ≤ 2 then 1 else 0) ∧
    countEv Ev.stop (i2c_read bus slv len adrs buf).2.1 =
      (if rcode (i2c_read bus slv len adrs buf).1 = 0 ∨
          rcode (i2c_read bus slv len adrs buf).1 = 2 then 1 else 0) := by
  have huw : i2c_write bus slv len adrs buf =
      writeLoop bus (slv % 256) (adrs % 256) (len % 256) buf MAX_RESTARTS ⟨0, 0, 0⟩ := by
    simp [i2c_write, h]
  have hur : i2c_read bus slv len adrs buf =
      readLoop bus (slv % 256) (adrs % 256) (len % 256) buf MAX_RESTARTS ⟨0, 0, 0⟩ := by
    simp [i2c_read, h]
  rw [huw, hur]
  exact ⟨writeLoop_stop bus (slv % 256) (adrs % 256) (len % 256) buf MAX_RESTARTS ⟨0, 0, 0⟩,
    readLoop_stop bus (slv % 256) (adrs % 256) (len % 256) buf MAX_RESTARTS ⟨0, 0, 0⟩⟩

/-- C1 witness: the amended Stop-count statement applied to the
all-accepting environment with `len = 1`. -/
theorem C1_stop_on_codes_witness :
    countEv Ev.stop (i2c_write (okBus zeroBuf) 0x53 1 0x2D zeroBuf).2 =
      (if wcode (i2c_write (okBus zeroBuf) 0x53 1 0x2D zeroBuf).1 ≤ 2 then 1 else 0) ∧
    countEv Ev.stop (i2c_read (okBus zeroBuf) 0x53 1 0x2D zeroBuf).2.1 =
      (if rcode (i2c_read (okBus zeroBuf) 0x53 1 0x2D zeroBuf).1 = 0 ∨
          rcode (i2c_read (okBus zeroBuf) 0x53 1 0x2D zeroBuf).1 = 2 then 1 else 0) :=
  C1_stop_on_codes (okBus zeroBuf) 0x53 1 0x2D zeroBuf (by decide)

/-- C2 (amended): against a slave that accepts every Start condition and
NACKs its address byte on every attempt, both transactions return the
address-framing code 2, `i2c_read` after exactly `MAX_RESTARTS = 20` Start
attempts (pre-decrement `--restarts`), but `i2c_write` after exactly
`MAX_RESTARTS + 1 = 21` Start attempts (post-decrement `restarts--`). -/
theorem C2_retry_counts (bus : Bus) (slv len adrs : Nat) (buf : Nat → Nat)
    (h : len % 256 ≠ 0)
    (hs : ∀ n, bus.startStatus n = TW_START ∨ bus.startStatus n = TW_REP_START)
    (hp : ∀ n, bus.putStatus n ((slv % 256 * 2 + TW_WRITE) % 256) = TW_MT_SLA_NACK) :
    (i2c_write bus slv len adrs buf).1 = WExit.addrFail ∧
    wcode (i2c_write bus slv len adrs buf).1 = 2 ∧
    countEv Ev.start (i2c_write bus slv len adrs buf).2 = MAX_RESTARTS + 1 ∧
    (i2c_read bus slv len adrs buf).1 = RExit.addrFail ∧
    rcode (i2c_read bus slv len adrs buf).1 = 2 ∧
    countEv Ev.start (i2c_read bus slv len adrs buf).2.1 = MAX_RESTARTS := by
  have hw := writeLoop_allnack bus (slv % 256) (adrs % 256) (len % 256) buf hs hp
    MAX_RESTARTS ⟨0, 0, 0⟩
  have hr := readLoop_allnack bus (slv % 256) (adrs % 256) (len % 256) buf hs hp
    MAX_RESTARTS ⟨0, 0, 0⟩ (by decide)
  have huw : i2c_write bus slv len adrs buf =
      writeLoop bus (slv % 256) (adrs % 256) (len % 256) buf MAX_RESTARTS ⟨0, 0, 0⟩ := by
    simp [i2c_write, h]
  have hur : i2c_read bus slv len adrs buf =
      readLoop bus (slv % 256) (adrs % 256) (len % 256) buf MAX_RESTARTS ⟨0, 0, 0⟩ := by
    simp [i2c_read, h]
  rw [huw, hur]
  exact ⟨hw.1, by rw [hw.1]; rfl, hw.2, hr.1, by rw [hr.1]; rfl, hr.2⟩

/-- C2 witness: the amended retry-count statement applied to the
always-address-NACKing slave with `len = 1`. -/
theorem C2_retry_counts_witness :
    (i2c_write addrNackBus 0x53 1 0x2D zeroBuf).1 = WExit.addrFail ∧
    wcode (i2c_write addrNackBus 0x53 1 0x2D zeroBuf).1 = 2 ∧
    countEv Ev.start (i2c_write addrNackBus 0x53 1 0x2D zeroBuf).2 = MAX_RESTARTS + 1 ∧
    (i2c_read addrNackBus 0x53 1 0x2D zeroBuf).1 = RExit.addrFail ∧
    rcode (i2c_read addrNackBus 0x53 1 0x2D zeroBuf).1 = 2 ∧
    countEv Ev.start (i2c_read addrNackBus 0x53 1 0x2D zeroBuf).2.1 = MAX_RESTARTS :=
  C2_retry_counts addrNackBus 0x53 1 0x2D zeroBuf (by decide)
    (fun _ => Or.inl rfl) (fun _ => rfl)

/-- C3: against a contention-free slave model that stores the bytes a write
puts on the bus and returns exactly those bytes on a subsequent read
(`okBus buf` answers the n-th reception with `buf n`, which is exactly the
n-th data byte transmitted by the write, as the write's full event trace
shows), `i2c_write` followed by `i2c_read` of the same length and register
both succeed and the read-back buffer equals the written buffer, for every
length in `[1, 32]` and every pattern of byte values. -/
theorem C3_round_trip (slv adrs n : Nat) (buf : Nat → Nat)
    (h1 : 1 ≤ n) (h2 : n ≤ 32) (hb : ∀ i, buf i < 256) :
    i2c_write (okBus zeroBuf) slv n adrs buf =
      (WExit.success,
        Ev.start :: Ev.put ((slv % 256 * 2 + TW_WRITE) % 256) :: Ev.put (adrs % 256) ::
          (putsFrom buf n 0 ++ [Ev.stop])) ∧
    (i2c_read (okBus buf) slv n adrs zeroBuf).1 = RExit.success ∧
    (∀ j, j < n → (i2c_read (okBus buf) slv n adrs zeroBuf).2.2 j = buf j) := by
  have hmod : n % 256 = n := Nat.mod_eq_of_lt (by omega)
  have hz : n % 256 ≠ 0 := by omega
  have hz2 : n ≠ 0 := by omega
  have hw := writeLoop_allack (okBus zeroBuf) (slv % 256) (adrs % 256) n buf
    (fun _ => rfl) (fun _ _ => rfl) MAX_RESTARTS ⟨0, 0, 0⟩
  have hr := readLoop_allack (okBus buf) (slv % 256) (adrs % 256) n zeroBuf
    (fun _ => rfl) (fun _ _ => rfl) MAX_RESTARTS ⟨0, 0, 0⟩
  simp only at hr
  have huw : i2c_write (okBus zeroBuf) slv n adrs buf =
      writeLoop (okBus zeroBuf) (slv % 256) (adrs % 256) n buf MAX_RESTARTS ⟨0, 0, 0⟩ := by
    simp [i2c_write, hz, hz2, hmod]
  have hur : i2c_read (okBus buf) slv n adrs zeroBuf =
      readLoop (okBus buf) (slv % 256) (adrs % 256) n zeroBuf MAX_RESTARTS ⟨0, 0, 0⟩ := by
    simp [i2c_read, hz, hz2, hmod]
  refine ⟨?_, ?_, ?_⟩
  · rw [huw, hw]
  · rw [hur, hr]
  · intro j hj
    rw [hur, hr]
    show (readData (okBus buf) n 0 0 zeroBuf).2 j = buf j
    have hc : 0 ≤ j ∧ j < 0 + n := by omega
    rw [readData_buf (okBus buf) n 0 0 zeroBuf j h1, if_pos hc]
    simp [okBus, Nat.mod_eq_of_lt (hb j)]

/-- C3 witness: a concrete two-byte round trip. -/
theorem C3_round_trip_witness :
    (i2c_write (okBus zeroBuf) 0x53 2 0x2D (fun _ => 9)).1 = WExit.success ∧
    (i2c_read (okBus (fun _ => 9)) 0x53 2 0x2D zeroBuf).1 = RExit.success ∧
    (i2c_read (okBus (fun _ => 9)) 0x53 2 0x2D zeroBuf).2.2 0 = 9 ∧
    (i2c_read (okBus (fun _ => 9)) 0x53 2 0x2D zeroBuf).2.2 1 = 9 := by
  have h := C3_round_trip 0x53 0x2D 2 (fun _ => 9) (by decide) (by decide)
    (by intro i; show (9 : Nat) < 256; decide)
  exact ⟨by rw [h.1], h.2.1, h.2.2 0 (by decide), h.2.2 1 (by decide)⟩

/-- C5: a successful `i2c_read` of length `k ≥ 1` performs exactly `k - 1`
ACKed receptions followed by exactly one NACKed reception, in that order, and
stores the `k` received bytes into the caller's buffer in order, leaving the
rest of the buffer unchanged. -/
theorem C5_read_ack_pattern (bus : Bus) (slv len adrs : Nat) (buf : Nat → Nat)
    (h1 : 1 ≤ len) (h2 : len ≤ 255)
    (hs : (i2c_read bus slv len adrs buf).1 = RExit.success) :
    getEvents (i2c_read bus slv len adrs buf).2.1 =
      List.replicate (len - 1) Ev.getAck ++ [Ev.getNack] ∧
    (∀ j, j < len → (i2c_read bus slv len adrs buf).2.2 j = bus.getByte j % 256) ∧
    (∀ j, len ≤ j → (i2c_read bus slv len adrs buf).2.2 j = buf j) := by
  have hmod : len % 256 = len := Nat.mod_eq_of_lt (by omega)
  have hz : len % 256 ≠ 0 := by omega
  have hz2 : len ≠ 0 := by omega
  have hur : i2c_read bus slv len adrs buf =
      readLoop bus (slv % 256) (adrs % 256) len buf MAX_RESTARTS ⟨0, 0, 0⟩ := by
    simp [i2c_read, hz, hz2, hmod]
  rw [hur] at hs ⊢
  have hx := readLoop_success bus (slv % 256) (adrs % 256) len buf MAX_RESTARTS ⟨0, 0, 0⟩ hs
  simp only at hx
  refine ⟨?_, ?_, ?_⟩
  · rw [hx.1, readData_getEvents bus len 0 0 buf h1]
  · intro j hj
    have hc : 0 ≤ j ∧ j < 0 + len := by omega
    rw [hx.2, readData_buf bus len 0 0 buf j h1, if_pos hc]
    simp
  · intro j hj
    have hc : ¬ (0 ≤ j ∧ j < 0 + len) := by omega
    rw [hx.2, readData_buf bus len 0 0 buf j h1, if_neg hc]

/-- C5 witness: a successful three-byte read shows two ACKed receptions, one
NACKed reception, and the second received byte stored at offset 1. -/
theorem C5_read_ack_pattern_witness :
    getEvents (i2c_read (okBus (fun m => 40 + m)) 0x53 3 0x32 zeroBuf).2.1 =
      List.replicate 2 Ev.getAck ++ [Ev.getNack] ∧
    (i2c_read (okBus (fun m => 40 + m)) 0x53 3 0x32 zeroBuf).2.2 1 = 41 := by
  have h := C5_read_ack_pattern (okBus (fun m => 40 + m)) 0x53 3 0x32 zeroBuf
    (by decide) (by decide) (by decide)
  refine ⟨h.1, ?_⟩
  have h2 := h.2.1 1 (by decide)
  simpa [okBus] using h2

/-- C6: in both transactions a NACK of the register-address byte aborts
immediately with the distinct code 3: the rejected register-address byte is
the last bus event of the call — no further Start (so no re-entry into the
retry loop), no byte, and no Stop follows it. -/
theorem C6_regnack_aborts (bus : Bus) (slv len adrs : Nat) (buf : Nat → Nat)
    (hw : (i2c_write bus slv len adrs buf).1 = WExit.regFail)
    (hr : (i2c_read bus slv len adrs buf).1 = RExit.regFail) :
    wcode (i2c_write bus slv len adrs buf).1 = 3 ∧
    (∃ pre, (i2c_write bus slv len adrs buf).2 =
      pre ++ [Ev.start, Ev.put ((slv % 256 * 2 + TW_WRITE) % 256), Ev.put (adrs % 256)]) ∧
    rcode (i2c_read bus slv len adrs buf).1 = 3 ∧
    (∃ pre, (i2c_read bus slv len adrs buf).2.1 =
      pre ++ [Ev.start, Ev.put ((slv % 256 * 2 + TW_WRITE) % 256), Ev.put (adrs % 256)]) := by
  by_cases hz : len % 256 = 0
  · simp [i2c_write, hz] at hw
  · have huw : i2c_write bus slv len adrs buf =
        writeLoop bus (slv % 256) (adrs % 256) (len % 256) buf MAX_RESTARTS ⟨0, 0, 0⟩ := by
      simp [i2c_write, hz]
    have hur : i2c_read bus slv len adrs buf =
        readLoop bus (slv % 256) (adrs % 256) (len % 256) buf MAX_RESTARTS ⟨0, 0, 0⟩ := by
      simp [i2c_read, hz]
    rw [huw] at hw ⊢
    rw [hur] at hr ⊢
    refine ⟨by rw [hw]; rfl, ?_, by rw [hr]; rfl, ?_⟩
    · exact writeLoop_regFail bus (slv % 256) (adrs % 256) (len % 256) buf
        MAX_RESTARTS ⟨0, 0, 0⟩ hw
    · exact readLoop_regFail bus (slv % 256) (adrs % 256) (len % 256) buf
        MAX_RESTARTS ⟨0, 0, 0⟩ hr

/-- C6 witness: with a slave that ACKs the address byte and NACKs the
register-address byte, both transactions return code 3. -/
theorem C6_regnack_aborts_witness :
    wcode (i2c_write regNackBus 0x53 1 0x2D zeroBuf).1 = 3 ∧
    rcode (i2c_read regNackBus 0x53 1 0x2D zeroBuf).1 = 3 := by
  have h := C6_regnack_aborts regNackBus 0x53 1 0x2D zeroBuf (by decide) (by decide)
  exact ⟨h.1, h.2.2.1⟩

/-- C9: whenever `i2c_read` returns a nonzero status code, the caller's
buffer is left completely unchanged: only the data-receive phase writes to
it, that phase is reached only after every fallible step has succeeded, and
the receive primitives cannot fail, so a reached data phase always ends in
status 0. -/
theorem C9_buffer_unchanged (bus : Bus) (slv len adrs : Nat) (buf : Nat → Nat)
    (h : rcode (i2c_read bus slv len adrs buf).1 ≠ 0) :
    (i2c_read bus slv len adrs buf).2.2 = buf := by
  by_cases hz : len % 256 = 0
  · exact absurd (by simp [i2c_read, hz, rcode]) h
  · have hur : i2c_read bus slv len adrs buf =
        readLoop bus (slv % 256) (adrs % 256) (len % 256) buf MAX_RESTARTS ⟨0, 0, 0⟩ := by
      simp [i2c_read, hz]
    rw [hur] at h ⊢
    refine readLoop_fail_buf bus (slv % 256) (adrs % 256) (len % 256) buf
      MAX_RESTARTS ⟨0, 0, 0⟩ ?_
    intro hsu
    exact h (by rw [hsu]; rfl)

/-- C9 witness: a read rejected at the register-address byte leaves the
buffer untouched. -/
theorem C9_buffer_unchanged_witness :
    (i2c_read regNackBus 0x53 1 0x2D zeroBuf).2.2 = zeroBuf :=
  C9_buffer_unchanged regNackBus 0x53 1 0x2D zeroBuf (by decide)

/-- C10: both transactions always terminate with a bounded amount of bus
traffic — the shared retry counter strictly decreases on every repeat of the
goto loop (the embedding's recursion is on that counter), and the total
number of Start conditions issued by one call never exceeds
`MAX_RESTARTS + 1 = 21`, for every environment and every argument list. -/
theorem C10_start_bound (bus : Bus) (slv len adrs : Nat) (buf : Nat → Nat) :
    countEv Ev.start (i2c_write bus slv len adrs buf).2 ≤ MAX_RESTARTS + 1 ∧
    countEv Ev.start (i2c_read bus slv len adrs buf).2.1 ≤ MAX_RESTARTS + 1 := by
  constructor
  · by_cases hz : len % 256 = 0
    · simp [i2c_write, hz, countEv]
    · have huw : i2c_write bus slv len adrs buf =
          writeLoop bus (slv % 256) (adrs % 256) (len % 256) buf MAX_RESTARTS ⟨0, 0, 0⟩ := by
        simp [i2c_write, hz]
      rw [huw]
      exact writeLoop_start_le bus (slv % 256) (adrs % 256) (len % 256) buf
        MAX_RESTARTS ⟨0, 0, 0⟩
  · by_cases hz : len % 256 = 0
    · simp [i2c_read, hz, countEv]
    · have hur : i2c_read bus slv len adrs buf =
          readLoop bus (slv % 256) (adrs % 256) (len % 256) buf MAX_RESTARTS ⟨0, 0, 0⟩ := by
        simp [i2c_read, hz]
      rw [hur]
      exact readLoop_start_le bus (slv % 256) (adrs % 256) (len % 256) buf
        MAX_RESTARTS ⟨0, 0, 0⟩ (by decide)
